import Mathlib

/-!
Verification of the Mailvelope key-discovery and encryption-orchestration
pipeline: a shallow embedding of editor.controller.js, AutoLocate,
WKDLocate and KeyringBase, with theorems settling the specification
claims about them.
-/

set_option maxRecDepth 4000

/-! ## WKDLocate: Z-Base-32 encoding (encodeZBase32) -/

/-- The z-base-32 alphabet used by encodeZBase32. -/
def ALPHABET : List Char :=
  ['y', 'b', 'n', 'd', 'r', 'f', 'g', '8', 'e', 'j', 'k', 'm', 'c', 'p', 'q', 'x',
   'o', 't', '1', 'u', 'w', 'i', 's', 'z', 'a', '3', '4', '5', 'h', '7', '6', '9']

/-- Character for a 5-bit value, as the JS indexing ALPHABET[i]. -/
def zbChar (i : Nat) : Char := ALPHABET.getD i 'y'

/-- The while-loop of encodeZBase32.  JS numbers under the bitwise
operators behave as 32-bit two-s complement integers, so the buffer is
tracked modulo 2 ^ 32; the masked 5-bit extraction reads bits below
position 12, hence sign extension of the JS arithmetic shift never
reaches the extracted bits and an unsigned shift is equivalent. -/
def zb32Loop (data : List Nat) (buffer index bitsLeft : Nat) (result : String) : String :=
  if hg : 0 < bitsLeft ∨ index < data.length then
    if bitsLeft < 5 then
      if h : index < data.length then
        zb32Loop data ((buffer <<< 8 ||| (data.get ⟨index, h⟩ &&& 255)) % 2 ^ 32) (index + 1)
          (bitsLeft + 8 - 5)
          (result.push (zbChar ((((buffer <<< 8 ||| (data.get ⟨index, h⟩ &&& 255)) % 2 ^ 32) >>>
            (bitsLeft + 8 - 5)) &&& 31)))
      else
        zb32Loop data ((buffer <<< (5 - bitsLeft)) % 2 ^ 32) index 0
          (result.push (zbChar ((((buffer <<< (5 - bitsLeft)) % 2 ^ 32) >>> 0) &&& 31)))
    else
      zb32Loop data buffer index (bitsLeft - 5)
        (result.push (zbChar ((buffer >>> (bitsLeft - 5)) &&& 31)))
  else result
termination_by 8 * (data.length - index) + bitsLeft
decreasing_by
  · omega
  · omega
  · omega

/-- encodeZBase32 from WKDLocate.js: encode a byte buffer with the
z-base-32 alphabet, 5-bit groups, most significant bit first. -/
def encodeZBase32 (data : List Nat) : String :=
  match data with
  | [] => ""
  | b0 :: _ => zb32Loop data b0 1 8 ""

/-! ### Specification-side formulation of z-base-32

The spec describes the encoding as: split the bytes into bits (most
significant bit first), cut into 5-bit groups zero-padding the last one,
and map each group through the alphabet. -/

/-- The low `k` bits of `x`, most significant first. -/
def lowBits (x : Nat) : Nat → List Bool
  | 0 => []
  | k + 1 => x.testBit k :: lowBits x k

/-- Bit stream of a byte sequence, 8 bits per byte, most significant first. -/
def bitsOfBytes (data : List Nat) : List Bool :=
  data.flatMap (fun b => lowBits b 8)

/-- Value of a bit group, most significant bit first. -/
def groupVal (g : List Bool) : Nat :=
  g.foldl (fun a b => 2 * a + b.toNat) 0

/-- Cut a bit stream into 5-bit groups, zero-padding the final group. -/
def zbase32Chunks (bits : List Bool) : List Nat :=
  if bits.isEmpty then []
  else if bits.length < 5 then [groupVal (bits ++ List.replicate (5 - bits.length) false)]
  else groupVal (bits.take 5) :: zbase32Chunks (bits.drop 5)
termination_by bits.length
decreasing_by
  simp only [List.length_drop]
  simp only [List.isEmpty_iff] at *
  omega

/-- Z-base-32 as described by the spec: 5-bit most-significant-bit-first
groups of the byte stream, mapped through the alphabet. -/
def zbase32Spec (data : List Nat) : String :=
  String.mk ((zbase32Chunks (bitsOfBytes data)).map zbChar)

example : encodeZBase32 [] = "" := rfl

unseal zb32Loop in
example : encodeZBase32 [1, 2, 3] = "yrbyg" := by decide

unseal zbase32Chunks in
example : zbase32Spec [1, 2, 3] = "yrbyg" := by decide

/-! ### Lemmas relating the loop to the specification formulation -/

lemma and_31_eq_mod (x : Nat) : x &&& 31 = x % 2 ^ 5 :=
  Nat.and_pow_two_sub_one_eq_mod x 5

lemma and_255_eq_mod (x : Nat) : x &&& 255 = x % 256 :=
  Nat.and_pow_two_sub_one_eq_mod x 8

lemma and255_lt (x : Nat) : x &&& 255 < 256 := by
  rw [and_255_eq_mod]
  exact Nat.mod_lt _ (by norm_num)

@[simp] lemma lowBits_length (x k : Nat) : (lowBits x k).length = k := by
  induction k with
  | zero => rfl
  | succ k ih => simp [lowBits, ih]

lemma lowBits_congr {x y : Nat} (k : Nat) (h : ∀ i, i < k → x.testBit i = y.testBit i) :
    lowBits x k = lowBits y k := by
  induction k with
  | zero => rfl
  | succ k ih =>
    simp only [lowBits]
    rw [h k (Nat.lt_succ_self k), ih (fun i hi => h i (Nat.lt_succ_of_lt hi))]

lemma lowBits_mod {k n : Nat} (x : Nat) (h : k ≤ n) :
    lowBits (x % 2 ^ n) k = lowBits x k := by
  refine lowBits_congr k (fun i hi => ?_)
  rw [Nat.testBit_mod_two_pow]
  simp [Nat.lt_of_lt_of_le hi h]

lemma lowBits_and255 (x : Nat) : lowBits (x &&& 255) 8 = lowBits x 8 := by
  rw [and_255_eq_mod, show (256 : ℕ) = 2 ^ 8 from rfl]
  exact lowBits_mod x le_rfl

lemma lowBits_decomp (x m n : Nat) :
    lowBits x (m + n) = lowBits (x >>> n) m ++ lowBits x n := by
  induction m with
  | zero => simp [lowBits]
  | succ m ih =>
    have : m + 1 + n = (m + n) + 1 := by omega
    rw [this]
    simp only [lowBits, List.cons_append, ← ih]
    rw [Nat.testBit_shiftRight]
    rw [Nat.add_comm n m]

lemma foldl_groupVal (l : List Bool) (init : Nat) :
    l.foldl (fun a b => 2 * a + b.toNat) init = init * 2 ^ l.length + groupVal l := by
  induction l generalizing init with
  | nil => simp [groupVal]
  | cons b t ih =>
    have hg : groupVal (b :: t) = (2 * 0 + b.toNat) * 2 ^ t.length + groupVal t := by
      simp only [groupVal, List.foldl_cons]
      exact ih _
    simp only [List.foldl_cons, List.length_cons]
    rw [ih (2 * init + b.toNat), hg]
    ring

lemma groupVal_cons (b : Bool) (t : List Bool) :
    groupVal (b :: t) = b.toNat * 2 ^ t.length + groupVal t := by
  have h := foldl_groupVal t (2 * 0 + b.toNat)
  simp only [groupVal, List.foldl_cons] at h ⊢
  rw [h]
  ring

lemma groupVal_append (l1 l2 : List Bool) :
    groupVal (l1 ++ l2) = groupVal l1 * 2 ^ l2.length + groupVal l2 := by
  simp only [groupVal, List.foldl_append]
  rw [foldl_groupVal]
  rfl

lemma groupVal_lowBits (x k : Nat) : groupVal (lowBits x k) = x % 2 ^ k := by
  induction k with
  | zero => simp [lowBits, groupVal, Nat.mod_one]
  | succ k ih =>
    simp only [lowBits]
    rw [groupVal_cons, lowBits_length, ih]
    have hx : x % 2 ^ (k + 1) = x % 2 ^ k + 2 ^ k * (x / 2 ^ k % 2) := by
      rw [pow_succ]
      exact Nat.mod_mul
    rw [hx, Nat.testBit, Nat.shiftRight_eq_div_pow]
    rcases Nat.mod_two_eq_zero_or_one (x / 2 ^ k) with h | h
    · simp [h]
    · simp [h]
      omega

lemma groupVal_pad (l : List Bool) (p : Nat) :
    groupVal (l ++ List.replicate p false) = groupVal l * 2 ^ p := by
  rw [groupVal_append]
  have : groupVal (List.replicate p false) = 0 := by
    induction p with
    | zero => rfl
    | succ p ih => rw [List.replicate_succ, groupVal_cons]; simp [ih]
  simp [this]

lemma lowBits_refill (x c k : Nat) (hc : c < 256) :
    lowBits ((x <<< 8 ||| c)) (k + 8) = lowBits x k ++ lowBits c 8 := by
  rw [lowBits_decomp _ k 8]
  congr 1
  · refine lowBits_congr k (fun i hi => ?_)
    rw [Nat.testBit_shiftRight, Nat.testBit_lor, Nat.testBit_shiftLeft]
    have hcb : c.testBit (8 + i) = false := by
      apply Nat.testBit_lt_two_pow
      calc c < 256 := hc
        _ = 2 ^ 8 := rfl
        _ ≤ 2 ^ (8 + i) := Nat.pow_le_pow_right (by norm_num) (by omega)
    simp [hcb, show 8 + i - 8 = i from by omega, show 8 + i ≥ 8 from by omega]
  · refine lowBits_congr 8 (fun i hi => ?_)
    rw [Nat.testBit_lor, Nat.testBit_shiftLeft]
    have : ¬ (i ≥ 8) := by omega
    simp [this]

lemma zbase32Chunks_nil : zbase32Chunks [] = [] := by
  rw [zbase32Chunks]
  simp

lemma zbase32Chunks_small (bits : List Bool) (h0 : bits ≠ []) (h5 : bits.length < 5) :
    zbase32Chunks bits = [groupVal (bits ++ List.replicate (5 - bits.length) false)] := by
  rw [zbase32Chunks]
  simp [h0, h5]

lemma zbase32Chunks_cons5 (g t : List Bool) (hg : g.length = 5) :
    zbase32Chunks (g ++ t) = groupVal g :: zbase32Chunks t := by
  rw [zbase32Chunks]
  have hlen : (g ++ t).length = 5 + t.length := by simp [hg]
  have hne : ¬ (g ++ t).isEmpty = true := by
    simp [List.isEmpty_iff]
    intro h
    rw [h] at hg
    simp at hg
  rw [if_neg hne, if_neg (by omega : ¬ (g ++ t).length < 5)]
  rw [List.take_left' hg, List.drop_left' hg]

lemma push_append_mk (s : String) (c : Char) (l : List Char) :
    s.push c ++ String.mk l = s ++ String.mk (c :: l) := by
  cases s with
  | mk d =>
    show String.mk ((d ++ [c]) ++ l) = String.mk (d ++ (c :: l))
    rw [List.append_assoc]
    rfl

/-- The encodeZBase32 loop produces exactly the 5-bit MSB-first grouping of
the pending bits (low bits of the buffer) followed by the remaining bytes. -/
lemma zb32Loop_eq (data : List Nat) (buffer index bitsLeft : Nat) (result : String) :
    zb32Loop data buffer index bitsLeft result =
      result ++ String.mk ((zbase32Chunks
        (lowBits buffer bitsLeft ++ bitsOfBytes (data.drop index))).map zbChar) := by
  induction buffer, index, bitsLeft, result using zb32Loop.induct data with
  | case1 buffer index bitsLeft result hg h5 h ih =>
    rw [zb32Loop, dif_pos hg, if_pos h5, dif_pos h]
    rw [ih]
    have hstream : lowBits buffer bitsLeft ++ bitsOfBytes (data.drop index) =
        (lowBits (((buffer <<< 8 ||| (data.get ⟨index, h⟩ &&& 255)) % 2 ^ 32) >>>
            (bitsLeft + 8 - 5)) 5 ++
          lowBits ((buffer <<< 8 ||| (data.get ⟨index, h⟩ &&& 255)) % 2 ^ 32) (bitsLeft + 8 - 5)) ++
          bitsOfBytes (data.drop (index + 1)) := by
      rw [List.drop_eq_getElem_cons h]
      have hbytes : bitsOfBytes (data[index] :: data.drop (index + 1)) =
          lowBits (data.get ⟨index, h⟩) 8 ++ bitsOfBytes (data.drop (index + 1)) := by
        simp only [bitsOfBytes, List.flatMap_cons]
        rfl
      rw [hbytes, ← List.append_assoc]
      have h1 : lowBits (data.get ⟨index, h⟩) 8 = lowBits (data.get ⟨index, h⟩ &&& 255) 8 :=
        (lowBits_and255 _).symm
      have h2 : lowBits buffer bitsLeft ++ lowBits (data.get ⟨index, h⟩ &&& 255) 8 =
          lowBits ((buffer <<< 8 ||| (data.get ⟨index, h⟩ &&& 255)) % 2 ^ 32) (bitsLeft + 8) := by
        rw [lowBits_mod _ (by omega), lowBits_refill _ _ _ (and255_lt _)]
      have h3 : lowBits ((buffer <<< 8 ||| (data.get ⟨index, h⟩ &&& 255)) % 2 ^ 32)
            (bitsLeft + 8) =
          lowBits (((buffer <<< 8 ||| (data.get ⟨index, h⟩ &&& 255)) % 2 ^ 32) >>>
              (bitsLeft + 8 - 5)) 5 ++
            lowBits ((buffer <<< 8 ||| (data.get ⟨index, h⟩ &&& 255)) % 2 ^ 32)
              (bitsLeft + 8 - 5) := by
        conv_lhs => rw [show bitsLeft + 8 = 5 + (bitsLeft + 8 - 5) from by omega]
        exact lowBits_decomp _ 5 _
      rw [h1, h2, h3]
    rw [hstream, List.append_assoc, zbase32Chunks_cons5 _ _ (lowBits_length _ _)]
    rw [List.map_cons, ← push_append_mk]
    congr 3
    rw [groupVal_lowBits, and_31_eq_mod]
  | case2 buffer index bitsLeft result hg h5 h ih =>
    rw [zb32Loop, dif_pos hg, if_pos h5, dif_neg h]
    rw [ih]
    have hb : 0 < bitsLeft := by
      rcases hg with h1 | h1
      · exact h1
      · exact absurd h1 h
    have hdrop : data.drop index = [] := List.drop_eq_nil_of_le (by omega)
    rw [hdrop]
    have hbits0 : lowBits ((buffer <<< (5 - bitsLeft)) % 2 ^ 32) 0 = [] := rfl
    have hbitsOfNil : bitsOfBytes [] = [] := rfl
    rw [hbits0, hbitsOfNil, List.nil_append, zbase32Chunks_nil]
    have hsmall : zbase32Chunks (lowBits buffer bitsLeft ++ []) =
        [groupVal (lowBits buffer bitsLeft) * 2 ^ (5 - bitsLeft)] := by
      rw [List.append_nil, zbase32Chunks_small _ (by
          intro hnil
          have hlen := lowBits_length buffer bitsLeft
          rw [hnil] at hlen
          simp at hlen
          omega) (by rw [lowBits_length]; omega)]
      rw [lowBits_length, groupVal_pad]
    rw [hsmall]
    have hchar : (((buffer <<< (5 - bitsLeft)) % 2 ^ 32) >>> 0) &&& 31 =
        groupVal (lowBits buffer bitsLeft) * 2 ^ (5 - bitsLeft) := by
      rw [Nat.shiftRight_zero, and_31_eq_mod, groupVal_lowBits]
      rw [Nat.mod_mod_of_dvd _ (pow_dvd_pow 2 (by norm_num : 5 ≤ 32))]
      rw [Nat.shiftLeft_eq]
      have h32 : (2 : ℕ) ^ 5 = 2 ^ bitsLeft * 2 ^ (5 - bitsLeft) := by
        rw [← pow_add]
        congr 1
        omega
      rw [h32, Nat.mul_mod_mul_right]
    rw [hchar, List.map_cons, List.map_nil, ← push_append_mk]
  | case3 buffer index bitsLeft result hg h5 ih =>
    rw [zb32Loop, dif_pos hg, if_neg h5]
    rw [ih]
    have hdecomp : lowBits buffer bitsLeft =
        lowBits (buffer >>> (bitsLeft - 5)) 5 ++ lowBits buffer (bitsLeft - 5) := by
      conv_lhs => rw [show bitsLeft = 5 + (bitsLeft - 5) from by omega]
      exact lowBits_decomp _ 5 _
    rw [hdecomp, List.append_assoc, zbase32Chunks_cons5 _ _ (lowBits_length _ _)]
    rw [List.map_cons, ← push_append_mk]
    congr 3
    rw [groupVal_lowBits, and_31_eq_mod]
  | case4 buffer index bitsLeft result hg =>
    rw [zb32Loop, dif_neg hg]
    have hbl : bitsLeft = 0 := by omega
    have hidx : data.length ≤ index := by omega
    rw [hbl, List.drop_eq_nil_of_le hidx]
    have hbitsOfNil : bitsOfBytes [] = [] := rfl
    have hlow0 : lowBits buffer 0 = [] := rfl
    rw [hbitsOfNil, hlow0, List.nil_append, zbase32Chunks_nil, List.map_nil]
    exact (String.append_empty result).symm

/-- encodeZBase32 agrees with the specification formulation of z-base-32 on
every byte sequence. -/
lemma encodeZBase32_eq_spec (data : List Nat) : encodeZBase32 data = zbase32Spec data := by
  match data with
  | [] =>
    show "" = zbase32Spec []
    rw [zbase32Spec]
    have h0 : bitsOfBytes [] = [] := rfl
    rw [h0, zbase32Chunks_nil, List.map_nil]
  | b0 :: rest =>
    rw [encodeZBase32, zb32Loop_eq, zbase32Spec]
    have hdrop : (b0 :: rest).drop 1 = rest := rfl
    rw [hdrop]
    have hlow : lowBits b0 8 ++ bitsOfBytes rest = bitsOfBytes (b0 :: rest) := by
      simp only [bitsOfBytes, List.flatMap_cons]
    rw [hlow]
    cases hmk : String.mk ((zbase32Chunks (bitsOfBytes (b0 :: rest))).map zbChar) with
    | mk d => rfl

/-! ## WKDLocate: buildWKDUrl

The JS regex (.*)@(.*) is greedy: the local part is everything before the
last at sign, the domain everything after it; with no at sign the match
fails (exec returns null and the destructuring throws). -/

/-- JS String.prototype.toLowerCase, modelled as per-character lowering. -/
def toLowerCase (s : String) : String := String.mk (s.toList.map Char.toLower)

/-- Split a character list at the last occurrence of the at sign. -/
def splitLastAt (cs : List Char) : Option (List Char × List Char) :=
  match cs with
  | [] => none
  | c :: rest =>
    match splitLastAt rest with
    | some (l, d) => some (c :: l, d)
    | none => if c = '@' then some ([], rest) else none

/-- buildWKDUrl from WKDLocate.js.  The SHA-1 digest comes from the
external node crypto module and is passed as a function argument. -/
def buildWKDUrl (sha1 : String → List Nat) (email : String) : Except String String :=
  match splitLastAt email.toList with
  | none => Except.error "WKD: failed to parse (regex match failed)"
  | some (l, d) =>
    let localPart := String.mk l
    let domain := String.mk d
    if localPart = "" ∨ domain = "" then Except.error ("WKD: failed to parse: " ++ email)
    else Except.ok ("https://" ++ domain ++ "/.well-known/openpgpkey/hu/" ++
      encodeZBase32 (sha1 (toLowerCase localPart)))

lemma splitLastAt_no_at (cs : List Char) (h : ¬ '@' ∈ cs) : splitLastAt cs = none := by
  induction cs with
  | nil => rfl
  | cons c rest ih =>
    rw [splitLastAt]
    rw [ih (fun hm => h (List.mem_cons_of_mem c hm))]
    have hc : ¬ c = '@' := fun hc => h (hc ▸ List.mem_cons_self c rest)
    simp [hc]

lemma splitLastAt_append (l d : List Char) (h : ¬ '@' ∈ d) :
    splitLastAt (l ++ '@' :: d) = some (l, d) := by
  induction l with
  | nil =>
    rw [List.nil_append, splitLastAt, splitLastAt_no_at d h]
    simp
  | cons c rest ih =>
    rw [List.cons_append, splitLastAt, ih]

lemma buildWKDUrl_wellFormed (sha1 : String → List Nat) (lp dom : String)
    (hl : lp ≠ "") (hd : dom ≠ "") (hat : ¬ '@' ∈ dom.toList) :
    buildWKDUrl sha1 (lp ++ "@" ++ dom) =
      Except.ok ("https://" ++ dom ++ "/.well-known/openpgpkey/hu/" ++
        encodeZBase32 (sha1 (toLowerCase lp))) := by
  rw [buildWKDUrl]
  have hsplit : (lp ++ "@" ++ dom).toList = lp.toList ++ '@' :: dom.toList := by
    cases lp with
    | mk lpd =>
      cases dom with
      | mk domd => simp [String.toList]
  rw [hsplit, splitLastAt_append _ _ hat]
  dsimp only
  have hlp : String.mk lp.toList = lp := by cases lp; rfl
  have hdom : String.mk dom.toList = dom := by cases dom; rfl
  rw [hlp, hdom]
  rw [if_neg (by
    push_neg
    exact ⟨hl, hd⟩)]

lemma buildWKDUrl_emptyLocal (sha1 : String → List Nat) (dom : String)
    (hat : ¬ '@' ∈ dom.toList) :
    (buildWKDUrl sha1 (String.mk ('@' :: dom.toList))).isOk = false := by
  rw [buildWKDUrl]
  have hsplit : (String.mk ('@' :: dom.toList)).toList = [] ++ '@' :: dom.toList := rfl
  rw [hsplit, splitLastAt_append _ _ hat]
  dsimp only
  rw [if_pos (Or.inl rfl)]
  rfl

lemma buildWKDUrl_emptyDomain (sha1 : String → List Nat) (s : String) :
    (buildWKDUrl sha1 (String.mk (s.toList ++ ['@']))).isOk = false := by
  rw [buildWKDUrl]
  have hsplit : (String.mk (s.toList ++ ['@'])).toList = s.toList ++ '@' :: [] := rfl
  rw [hsplit, splitLastAt_append _ _ (by simp)]
  dsimp only
  rw [if_pos (Or.inr rfl)]
  rfl

/-- C4: for every well-formed email local(at)domain with non-empty parts,
buildWKDUrl returns exactly the URL
https:// domain /.well-known/openpgpkey/hu/ zbase32(sha1(lowercase(local))),
where the z-base-32 encoding is the 5-bit most-significant-bit-first
grouping over the alphabet ybndrfg8ejkmcpqxot1uwisza345h769 with no
padding and empty input encoding to the empty string; for a malformed
email (empty local part or empty domain) buildWKDUrl fails. -/
theorem wkd_url_c4 :
    (∀ (sha1 : String → List Nat) (lp dom : String), lp ≠ "" → dom ≠ "" →
      ¬ '@' ∈ dom.toList →
      buildWKDUrl sha1 (lp ++ "@" ++ dom) =
        Except.ok ("https://" ++ dom ++ "/.well-known/openpgpkey/hu/" ++
          encodeZBase32 (sha1 (toLowerCase lp))))
    ∧ (∀ data, encodeZBase32 data = zbase32Spec data)
    ∧ encodeZBase32 [] = ""
    ∧ (∀ (sha1 : String → List Nat) (dom : String), ¬ '@' ∈ dom.toList →
      (buildWKDUrl sha1 (String.mk ('@' :: dom.toList))).isOk = false)
    ∧ (∀ (sha1 : String → List Nat) (s : String),
      (buildWKDUrl sha1 (String.mk (s.toList ++ ['@']))).isOk = false) :=
  ⟨buildWKDUrl_wellFormed, encodeZBase32_eq_spec, rfl,
    buildWKDUrl_emptyLocal, buildWKDUrl_emptyDomain⟩

unseal zb32Loop in
/-- Witness for C4 at a concrete input. -/
theorem wkd_url_c4_witness :
    buildWKDUrl (fun _ => [1, 2, 3]) "Foo@example.org" =
      Except.ok "https://example.org/.well-known/openpgpkey/hu/yrbyg" := by
  have h := wkd_url_c4.1 (fun _ => [1, 2, 3]) "Foo" "example.org"
    (by decide) (by decide) (by decide)
  have he : ("Foo" ++ "@" ++ "example.org" : String) = "Foo@example.org" := rfl
  rw [he] at h
  rw [h]
  refine congrArg Except.ok ?_
  decide

/-! ## WKDLocate: parseKeysForEMail

Keys are the result of openpgp.key.read on the fetched bytes (external
library); a key is modelled by the fields this code inspects: fingerprint,
user list, primary-key verification status and creation timestamp.
The per-user email is the one extracted by mapKeyUserIds.
Modelled from the spec: mapKeyUserIds (src/modules/key.js, not included
in the sources) normalizes a user id to its email address; a user id
without an email yields an empty email string. -/

/-- openpgp.enums.keyStatus. -/
inductive KeyStatus
  | invalid
  | expired
  | revoked
  | valid
  | no_self_cert
deriving DecidableEq, Repr

/-- A user id packet together with its mapKeyUserIds-normalized email. -/
structure PgpUser where
  userId : String
  email : String
deriving DecidableEq, Repr

/-- A parsed OpenPGP key as inspected by parseKeysForEMail. -/
structure PgpKey where
  fingerprint : String
  users : List PgpUser
  status : KeyStatus
  created : Nat
deriving DecidableEq, Repr

/-- Result of openpgp.key.read: an optional error and the parsed keys. -/
structure ReadResult where
  err : Option String
  keys : List PgpKey
deriving DecidableEq, Repr

/-- The user filter inside parseKeysForEMail: keep exactly the user ids
whose normalized email matches the queried email case-insensitively. -/
def matchingUsers (users : List PgpUser) (email : String) : List PgpUser :=
  users.filter (fun u => toLowerCase u.email == toLowerCase email)

/-- The candidate tie-break inside parseKeysForEMail (onlyOne mode):
prefer a valid primary key, then the more recently created primary key. -/
def pickCandidate (candidate key : PgpKey) : PgpKey :=
  let newValid := key.status == KeyStatus.valid
  let oldValid := candidate.status == KeyStatus.valid
  if newValid && !oldValid then key
  else if newValid == oldValid && decide (candidate.created < key.created) then key
  else candidate

/-- One step of the forEach over the parsed keys: state is the list of
kept keys (armored in the source) and the current best candidate. -/
def parseStep (email : String) (onlyOne : Bool) (st : List PgpKey × Option PgpKey)
    (key : PgpKey) : List PgpKey × Option PgpKey :=
  let keptUsers := matchingUsers key.users email
  if keptUsers.isEmpty then st
  else
    let key2 : PgpKey := { key with users := keptUsers }
    if onlyOne then
      match st.2 with
      | none => (st.1, some key2)
      | some cand => (st.1, some (pickCandidate cand key2))
    else (st.1 ++ [key2], st.2)

/-- parseKeysForEMail from WKDLocate.js.  The armored serialization of a
key is modelled by the key value itself (with its filtered user list);
the left summand is the single candidate of onlyOne mode, the right one
the list of all re-armored surviving keys. -/
def parseKeysForEMail (res : ReadResult) (email : String) (onlyOne : Bool) :
    Except String (Sum PgpKey (List PgpKey)) :=
  match res.err with
  | some e => Except.error ("WKD: Failed to parse result: " ++ e)
  | none =>
    let st := res.keys.foldl (parseStep email onlyOne) ([], none)
    match st.2 with
    | some cand =>
      if onlyOne then Except.ok (Sum.inl cand)
      else if st.1.isEmpty then
        Except.error "WKD: Failed to parse any matching key from the result (bad server)"
      else Except.ok (Sum.inr st.1)
    | none =>
      if st.1.isEmpty then
        Except.error "WKD: Failed to parse any matching key from the result (bad server)"
      else Except.ok (Sum.inr st.1)

/-- The keys surviving the identity filter, with their filtered users. -/
def wkdSurvivors (keys : List PgpKey) (email : String) : List PgpKey :=
  keys.filterMap (fun key =>
    let m := matchingUsers key.users email
    if m.isEmpty then none else some { key with users := m })

/-- The best-candidate fold of onlyOne mode over the surviving keys. -/
def wkdBestCandidate (c : Option PgpKey) (l : List PgpKey) : Option PgpKey :=
  l.foldl (fun co k =>
    match co with
    | none => some k
    | some c0 => some (pickCandidate c0 k)) c

lemma foldl_parseStep_false (email : String) (keys : List PgpKey) (acc : List PgpKey) :
    keys.foldl (parseStep email false) (acc, none) =
      (acc ++ wkdSurvivors keys email, none) := by
  induction keys generalizing acc with
  | nil => simp [wkdSurvivors]
  | cons k t ih =>
    rw [List.foldl_cons]
    by_cases hm : matchingUsers k.users email = []
    · rw [show parseStep email false (acc, none) k = (acc, none) from by
        simp [parseStep, List.isEmpty_iff, hm]]
      rw [ih]
      congr 2
      simp [wkdSurvivors, List.filterMap_cons, hm]
    · rw [show parseStep email false (acc, none) k =
          (acc ++ [{ k with users := matchingUsers k.users email }], none) from by
        simp [parseStep, List.isEmpty_iff, hm]]
      rw [ih]
      congr 1
      rw [List.append_assoc]
      congr 1
      simp [wkdSurvivors, List.filterMap_cons, hm]

lemma foldl_parseStep_true (email : String) (keys : List PgpKey) (acc : List PgpKey)
    (c : Option PgpKey) :
    keys.foldl (parseStep email true) (acc, c) =
      (acc, wkdBestCandidate c (wkdSurvivors keys email)) := by
  induction keys generalizing c with
  | nil => simp [wkdSurvivors, wkdBestCandidate]
  | cons k t ih =>
    rw [List.foldl_cons]
    by_cases hm : matchingUsers k.users email = []
    · rw [show parseStep email true (acc, c) k = (acc, c) from by
        simp [parseStep, List.isEmpty_iff, hm]]
      rw [ih]
      congr 2
      simp [wkdSurvivors, List.filterMap_cons, hm]
    · have hsurv : wkdSurvivors (k :: t) email =
          { k with users := matchingUsers k.users email } :: wkdSurvivors t email := by
        simp [wkdSurvivors, List.filterMap_cons, hm]
      cases c with
      | none =>
        rw [show parseStep email true (acc, none) k =
            (acc, some { k with users := matchingUsers k.users email }) from by
          simp [parseStep, List.isEmpty_iff, hm]]
        rw [ih, hsurv]
        rfl
      | some c0 =>
        rw [show parseStep email true (acc, some c0) k =
            (acc, some (pickCandidate c0 { k with users := matchingUsers k.users email }))
            from by simp [parseStep, List.isEmpty_iff, hm]]
        rw [ih, hsurv]
        rfl

lemma wkdBestCandidate_some (c : PgpKey) (l : List PgpKey) :
    ∃ r, wkdBestCandidate (some c) l = some r := by
  induction l generalizing c with
  | nil => exact ⟨c, rfl⟩
  | cons k t ih => exact ih (pickCandidate c k)

lemma wkdBestCandidate_none_iff (l : List PgpKey) :
    wkdBestCandidate none l = none ↔ l = [] := by
  cases l with
  | nil => simp [wkdBestCandidate]
  | cons k t =>
    simp only [wkdBestCandidate, List.foldl_cons]
    obtain ⟨r, hr⟩ := wkdBestCandidate_some k t
    rw [show (List.foldl (fun co k =>
        match co with
        | none => some k
        | some c0 => some (pickCandidate c0 k)) (some k) t) = some r from hr]
    simp

lemma parseKeysForEMail_false_eq (res : ReadResult) (email : String) (h : res.err = none) :
    parseKeysForEMail res email false =
      if (wkdSurvivors res.keys email).isEmpty
      then Except.error "WKD: Failed to parse any matching key from the result (bad server)"
      else Except.ok (Sum.inr (wkdSurvivors res.keys email)) := by
  rw [parseKeysForEMail, h]
  dsimp only
  rw [foldl_parseStep_false email res.keys [], List.nil_append]

lemma parseKeysForEMail_true_eq (res : ReadResult) (email : String) (h : res.err = none) :
    parseKeysForEMail res email true =
      (match wkdBestCandidate none (wkdSurvivors res.keys email) with
      | some cand => Except.ok (Sum.inl cand)
      | none =>
        Except.error "WKD: Failed to parse any matching key from the result (bad server)") := by
  rw [parseKeysForEMail, h]
  dsimp only
  rw [foldl_parseStep_true email res.keys [] none]
  cases hb : wkdBestCandidate none (wkdSurvivors res.keys email) with
  | some cand => rfl
  | none => rfl

/-- C1: parseKeysForEMail keeps in each returned key exactly the user ids
whose email matches the query case-insensitively, drops keys with no
matching identity, and fails when no key survives instead of returning an
empty result. -/
theorem wkd_filter_c1 (res : ReadResult) (email : String) (h : res.err = none) :
    (parseKeysForEMail res email false =
      if (wkdSurvivors res.keys email).isEmpty
      then Except.error "WKD: Failed to parse any matching key from the result (bad server)"
      else Except.ok (Sum.inr (wkdSurvivors res.keys email)))
    ∧ (∀ key, key ∈ wkdSurvivors res.keys email →
        ∃ k, k ∈ res.keys ∧ matchingUsers k.users email ≠ [] ∧
          key = { k with users := matchingUsers k.users email })
    ∧ (∀ key, key ∈ wkdSurvivors res.keys email → ∀ u, u ∈ key.users →
        toLowerCase u.email = toLowerCase email)
    ∧ (∀ onlyOne, (parseKeysForEMail res email onlyOne).isOk = false ↔
        wkdSurvivors res.keys email = []) := by
  refine ⟨parseKeysForEMail_false_eq res email h, ?_, ?_, ?_⟩
  · intro key hkey
    rw [wkdSurvivors, List.mem_filterMap] at hkey
    obtain ⟨k, hk, heq⟩ := hkey
    by_cases hm : matchingUsers k.users email = []
    · rw [if_pos (by simpa [List.isEmpty_iff] using hm)] at heq
      exact absurd heq (by simp)
    · rw [if_neg (by simpa [List.isEmpty_iff] using hm)] at heq
      exact ⟨k, hk, hm, (Option.some_inj.mp heq).symm⟩
  · intro key hkey u hu
    rw [wkdSurvivors, List.mem_filterMap] at hkey
    obtain ⟨k, hk, heq⟩ := hkey
    by_cases hm : matchingUsers k.users email = []
    · rw [if_pos (by simpa [List.isEmpty_iff] using hm)] at heq
      exact absurd heq (by simp)
    · rw [if_neg (by simpa [List.isEmpty_iff] using hm)] at heq
      have husers : key.users = matchingUsers k.users email := by
        rw [← Option.some_inj.mp heq]
      rw [husers, matchingUsers, List.mem_filter] at hu
      exact eq_of_beq hu.2
  · intro onlyOne
    cases onlyOne with
    | false =>
      rw [parseKeysForEMail_false_eq res email h]
      by_cases hs : (wkdSurvivors res.keys email).isEmpty
      · rw [if_pos hs]
        rw [show (Except.error
            "WKD: Failed to parse any matching key from the result (bad server)" :
            Except String (Sum PgpKey (List PgpKey))).isOk = false from rfl]
        simp [List.isEmpty_iff.mp hs]
      · rw [if_neg hs]
        rw [List.isEmpty_iff] at hs
        rw [show (Except.ok (Sum.inr (wkdSurvivors res.keys email)) :
            Except String (Sum PgpKey (List PgpKey))).isOk = true from rfl]
        simp [hs]
    | true =>
      rw [parseKeysForEMail_true_eq res email h]
      cases hb : wkdBestCandidate none (wkdSurvivors res.keys email) with
      | some cand =>
        have hne : wkdSurvivors res.keys email ≠ [] := by
          intro hnil
          rw [hnil] at hb
          simp [wkdBestCandidate] at hb
        rw [show (Except.ok (Sum.inl cand) :
            Except String (Sum PgpKey (List PgpKey))).isOk = true from rfl]
        simp [hne]
      | none =>
        rw [show (Except.error
            "WKD: Failed to parse any matching key from the result (bad server)" :
            Except String (Sum PgpKey (List PgpKey))).isOk = false from rfl]
        simp [(wkdBestCandidate_none_iff _).mp hb]

/-- Witness for C1 at a concrete parsed buffer: the non-matching key is
dropped, the matching key keeps only the matching identity, and the match
is case-insensitive. -/
theorem wkd_filter_c1_witness :
    parseKeysForEMail
      (ReadResult.mk none
        [PgpKey.mk "AA11" [PgpUser.mk "Alice <alice@x.org>" "alice@x.org",
            PgpUser.mk "Mallory <m@evil.org>" "m@evil.org"] KeyStatus.valid 10,
         PgpKey.mk "BB22" [PgpUser.mk "Bob <bob@y.org>" "bob@y.org"] KeyStatus.valid 20])
      "ALICE@x.org" false =
      Except.ok (Sum.inr
        [PgpKey.mk "AA11" [PgpUser.mk "Alice <alice@x.org>" "alice@x.org"]
          KeyStatus.valid 10]) := by
  have h := (wkd_filter_c1
    (ReadResult.mk none
      [PgpKey.mk "AA11" [PgpUser.mk "Alice <alice@x.org>" "alice@x.org",
          PgpUser.mk "Mallory <m@evil.org>" "m@evil.org"] KeyStatus.valid 10,
       PgpKey.mk "BB22" [PgpUser.mk "Bob <bob@y.org>" "bob@y.org"] KeyStatus.valid 20])
    "ALICE@x.org" rfl).1
  rw [h]
  rw [show wkdSurvivors
      [PgpKey.mk "AA11" [PgpUser.mk "Alice <alice@x.org>" "alice@x.org",
          PgpUser.mk "Mallory <m@evil.org>" "m@evil.org"] KeyStatus.valid 10,
       PgpKey.mk "BB22" [PgpUser.mk "Bob <bob@y.org>" "bob@y.org"] KeyStatus.valid 20]
      "ALICE@x.org" =
      [PgpKey.mk "AA11" [PgpUser.mk "Alice <alice@x.org>" "alice@x.org"]
        KeyStatus.valid 10] from by decide]
  rfl

lemma pickCandidate_valid_over_invalid (c k : PgpKey) (hk : k.status = KeyStatus.valid)
    (hc : c.status ≠ KeyStatus.valid) : pickCandidate c k = k := by
  simp [pickCandidate, beq_iff_eq, hk, hc]

lemma pickCandidate_keeps_valid (c k : PgpKey) (hc : c.status = KeyStatus.valid)
    (hk : k.status ≠ KeyStatus.valid) : pickCandidate c k = c := by
  simp [pickCandidate, beq_iff_eq, hk, hc]

lemma pickCandidate_newer (c k : PgpKey)
    (hv : (k.status = KeyStatus.valid) ↔ (c.status = KeyStatus.valid))
    (hcr : c.created < k.created) : pickCandidate c k = k := by
  by_cases hk : k.status = KeyStatus.valid
  · simp [pickCandidate, beq_iff_eq, hk, hv.mp hk, hcr]
  · have hc : ¬ c.status = KeyStatus.valid := fun h => hk (hv.mpr h)
    simp [pickCandidate, beq_iff_eq, hk, hc, hcr]

lemma pickCandidate_keeps_older_first (c k : PgpKey)
    (hv : (k.status = KeyStatus.valid) ↔ (c.status = KeyStatus.valid))
    (hcr : ¬ c.created < k.created) : pickCandidate c k = c := by
  by_cases hk : k.status = KeyStatus.valid
  · simp [pickCandidate, beq_iff_eq, hk, hv.mp hk, hcr]
  · have hc : ¬ c.status = KeyStatus.valid := fun h => hk (hv.mpr h)
    simp [pickCandidate, beq_iff_eq, hk, hc, hcr]

lemma parseKeysForEMail_two (ka kb : PgpKey) (email : String)
    (hma : matchingUsers ka.users email ≠ []) (hmb : matchingUsers kb.users email ≠ []) :
    parseKeysForEMail (ReadResult.mk none [ka, kb]) email true =
      Except.ok (Sum.inl (pickCandidate
        { ka with users := matchingUsers ka.users email }
        { kb with users := matchingUsers kb.users email })) := by
  rw [parseKeysForEMail_true_eq _ _ rfl]
  have hs : wkdSurvivors [ka, kb] email =
      [{ ka with users := matchingUsers ka.users email },
       { kb with users := matchingUsers kb.users email }] := by
    simp [wkdSurvivors, List.filterMap_cons, hma, hmb]
  rw [hs]
  rfl

/-- C5: in onlyOne mode a valid key is preferred over an invalid one and,
between keys of equal validity, the more recently created primary key is
preferred; in particular on a two-key buffer with an older invalid and a
newer valid key the valid key is selected (in either order), and of two
equally valid keys the newer one is selected (in either order). -/
theorem wkd_candidate_c5 :
    (∀ c k : PgpKey, k.status = KeyStatus.valid → c.status ≠ KeyStatus.valid →
      pickCandidate c k = k)
    ∧ (∀ c k : PgpKey, c.status = KeyStatus.valid → k.status ≠ KeyStatus.valid →
      pickCandidate c k = c)
    ∧ (∀ c k : PgpKey, ((k.status = KeyStatus.valid) ↔ (c.status = KeyStatus.valid)) →
      c.created < k.created → pickCandidate c k = k)
    ∧ (∀ c k : PgpKey, ((k.status = KeyStatus.valid) ↔ (c.status = KeyStatus.valid)) →
      ¬ c.created < k.created → pickCandidate c k = c)
    ∧ (∀ (email : String) (k1 k2 : PgpKey),
        matchingUsers k1.users email ≠ [] → matchingUsers k2.users email ≠ [] →
        k1.status ≠ KeyStatus.valid → k2.status = KeyStatus.valid →
        k1.created < k2.created →
        parseKeysForEMail (ReadResult.mk none [k1, k2]) email true =
          Except.ok (Sum.inl { k2 with users := matchingUsers k2.users email })
        ∧ parseKeysForEMail (ReadResult.mk none [k2, k1]) email true =
          Except.ok (Sum.inl { k2 with users := matchingUsers k2.users email }))
    ∧ (∀ (email : String) (k1 k2 : PgpKey),
        matchingUsers k1.users email ≠ [] → matchingUsers k2.users email ≠ [] →
        k1.status = KeyStatus.valid → k2.status = KeyStatus.valid →
        k1.created < k2.created →
        parseKeysForEMail (ReadResult.mk none [k1, k2]) email true =
          Except.ok (Sum.inl { k2 with users := matchingUsers k2.users email })
        ∧ parseKeysForEMail (ReadResult.mk none [k2, k1]) email true =
          Except.ok (Sum.inl { k2 with users := matchingUsers k2.users email })) := by
  refine ⟨pickCandidate_valid_over_invalid, pickCandidate_keeps_valid,
    pickCandidate_newer, pickCandidate_keeps_older_first, ?_, ?_⟩
  · intro email k1 k2 hm1 hm2 hv1 hv2 hcr
    constructor
    · rw [parseKeysForEMail_two k1 k2 email hm1 hm2]
      rw [pickCandidate_valid_over_invalid _ _ (by simpa using hv2) (by simpa using hv1)]
    · rw [parseKeysForEMail_two k2 k1 email hm2 hm1]
      rw [pickCandidate_keeps_valid _ _ (by simpa using hv2) (by simpa using hv1)]
  · intro email k1 k2 hm1 hm2 hv1 hv2 hcr
    constructor
    · rw [parseKeysForEMail_two k1 k2 email hm1 hm2]
      rw [pickCandidate_newer _ _ (by simp [hv1, hv2]) (by simpa using hcr)]
    · rw [parseKeysForEMail_two k2 k1 email hm2 hm1]
      rw [pickCandidate_keeps_older_first _ _ (by simp [hv1, hv2]) (by simpa using Nat.le_of_lt hcr)]

/-- Witness for C5: older invalid key versus newer valid key, the valid
one wins; two valid keys, the newer wins. -/
theorem wkd_candidate_c5_witness :
    parseKeysForEMail
      (ReadResult.mk none
        [PgpKey.mk "OLDBAD" [PgpUser.mk "A <a@x.org>" "a@x.org"] KeyStatus.revoked 5,
         PgpKey.mk "NEWGOOD" [PgpUser.mk "A <a@x.org>" "a@x.org"] KeyStatus.valid 9])
      "a@x.org" true =
      Except.ok (Sum.inl
        (PgpKey.mk "NEWGOOD" [PgpUser.mk "A <a@x.org>" "a@x.org"] KeyStatus.valid 9))
    ∧ parseKeysForEMail
      (ReadResult.mk none
        [PgpKey.mk "NEWER" [PgpUser.mk "A <a@x.org>" "a@x.org"] KeyStatus.valid 9,
         PgpKey.mk "OLDER" [PgpUser.mk "A <a@x.org>" "a@x.org"] KeyStatus.valid 5])
      "a@x.org" true =
      Except.ok (Sum.inl
        (PgpKey.mk "NEWER" [PgpUser.mk "A <a@x.org>" "a@x.org"] KeyStatus.valid 9)) := by
  constructor
  · have h := (wkd_candidate_c5.2.2.2.2.1 "a@x.org"
      (PgpKey.mk "OLDBAD" [PgpUser.mk "A <a@x.org>" "a@x.org"] KeyStatus.revoked 5)
      (PgpKey.mk "NEWGOOD" [PgpUser.mk "A <a@x.org>" "a@x.org"] KeyStatus.valid 9)
      (by decide) (by decide) (by decide) (by decide) (by decide)).1
    rw [h]
    rw [show matchingUsers [PgpUser.mk "A <a@x.org>" "a@x.org"] "a@x.org" =
      [PgpUser.mk "A <a@x.org>" "a@x.org"] from by decide]
  · have h := (wkd_candidate_c5.2.2.2.2.2 "a@x.org"
      (PgpKey.mk "OLDER" [PgpUser.mk "A <a@x.org>" "a@x.org"] KeyStatus.valid 5)
      (PgpKey.mk "NEWER" [PgpUser.mk "A <a@x.org>" "a@x.org"] KeyStatus.valid 9)
      (by decide) (by decide) (by decide) (by decide) (by decide)).2
    rw [h]
    rw [show matchingUsers [PgpUser.mk "A <a@x.org>" "a@x.org"] "a@x.org" =
      [PgpUser.mk "A <a@x.org>" "a@x.org"] from by decide]

/-! ## WKDLocate: sizeLimitResponse and the WKDLocate constants -/

/-- A fetch response: status, status text, and the body as the sequence of
chunks delivered by the stream reader (each chunk a byte list). -/
structure FetchResponse where
  status : Nat
  statusText : String
  chunks : List (List Nat)
deriving DecidableEq, Repr

/-- The pump loop of sizeLimitResponse: read chunk by chunk, accumulate
the total byte count, fail as soon as it exceeds the limit. -/
def sizeLimitPump (limit : Nat) : List (List Nat) → Nat → List (List Nat) →
    Except String (List Nat)
  | [], _, results => Except.ok results.flatten
  | value :: rest, total, results =>
    if total + value.length > limit then
      Except.error "WKD: Response longer then the max size"
    else sizeLimitPump limit rest (total + value.length) (results ++ [value])

/-- sizeLimitResponse from WKDLocate.js. -/
def sizeLimitResponse (response : FetchResponse) (limit : Nat) :
    Except String (List Nat) :=
  if response.status ≠ 200 then
    Except.error ("WKD: Invalid WKD Response " ++ toString response.status ++ ":" ++
      response.statusText)
  else sizeLimitPump limit response.chunks 0 []

/-- The WKDLocate constructor constants: timeout in seconds and size limit
in KiB, and the byte limit the lookup passes to sizeLimitResponse. -/
def WKDLocate.TIMEOUT : Nat := 5

def WKDLocate.SIZE_LIMIT : Nat := 64

def wkdSizeLimitBytes : Nat := WKDLocate.SIZE_LIMIT * 1024

def wkdTimeoutMillis : Nat := WKDLocate.TIMEOUT * 1000

lemma sizeLimitPump_char (limit : Nat) (chunks : List (List Nat)) :
    ∀ (total : Nat) (results : List (List Nat)), total ≤ limit →
    sizeLimitPump limit chunks total results =
      if total + (chunks.map List.length).sum ≤ limit
      then Except.ok (results ++ chunks).flatten
      else Except.error "WKD: Response longer then the max size" := by
  induction chunks with
  | nil =>
    intro total results htot
    simp [sizeLimitPump, htot]
  | cons value rest ih =>
    intro total results htot
    rw [sizeLimitPump]
    by_cases hover : total + value.length > limit
    · rw [if_pos hover]
      rw [if_neg (by
        simp only [List.map_cons, List.sum_cons]
        omega)]
    · rw [if_neg hover]
      rw [ih (total + value.length) (results ++ [value]) (by omega)]
      simp only [List.map_cons, List.sum_cons]
      rcases le_or_lt (total + (value.length + (rest.map List.length).sum)) limit with hle | hgt
      · rw [if_pos (by omega), if_pos (by omega)]
        congr 1
        rw [List.append_assoc]
        rfl
      · rw [if_neg (by omega), if_neg (by omega)]

/-- C2: sizeLimitResponse fails on a non-200 status; it fails as soon as a
prefix of the body chunks exceeds the limit (regardless of the rest of the
stream), yields no partial data on failure, and returns the full
concatenated body exactly when the total size is within the limit; the
configured limit is SIZE_LIMIT = 64 KiB = 65536 bytes. -/
theorem size_limit_c2 :
    (∀ (r : FetchResponse) (limit : Nat), r.status ≠ 200 →
      (sizeLimitResponse r limit).isOk = false)
    ∧ (∀ (r : FetchResponse) (limit : Nat), r.status = 200 →
      ((r.chunks.map List.length).sum ≤ limit ↔
        sizeLimitResponse r limit = Except.ok r.chunks.flatten))
    ∧ (∀ (st : String) (pre rest : List (List Nat)) (limit : Nat),
      limit < (pre.map List.length).sum →
      sizeLimitResponse (FetchResponse.mk 200 st (pre ++ rest)) limit =
        Except.error "WKD: Response longer then the max size")
    ∧ (∀ (r : FetchResponse) (limit : Nat) (bytes : List Nat),
      sizeLimitResponse r limit = Except.ok bytes → bytes = r.chunks.flatten)
    ∧ wkdSizeLimitBytes = 65536 ∧ WKDLocate.SIZE_LIMIT = 64 := by
  have hmain : ∀ (r : FetchResponse) (limit : Nat), r.status = 200 →
      sizeLimitResponse r limit =
        if (r.chunks.map List.length).sum ≤ limit
        then Except.ok r.chunks.flatten
        else Except.error "WKD: Response longer then the max size" := by
    intro r limit h200
    rw [sizeLimitResponse, if_neg (by simp [h200])]
    rw [sizeLimitPump_char limit r.chunks 0 [] (Nat.zero_le _)]
    simp
  refine ⟨?_, ?_, ?_, ?_, rfl, rfl⟩
  · intro r limit hst
    rw [sizeLimitResponse, if_pos hst]
    rfl
  · intro r limit h200
    rw [hmain r limit h200]
    constructor
    · intro hle
      rw [if_pos hle]
    · intro heq
      by_cases hle : (r.chunks.map List.length).sum ≤ limit
      · exact hle
      · rw [if_neg hle] at heq
        exact absurd heq (by simp)
  · intro st pre rest limit hover
    rw [hmain _ limit rfl]
    rw [if_neg (by
      simp only [List.map_append, List.sum_append]
      omega)]
  · intro r limit bytes heq
    by_cases h200 : r.status = 200
    · rw [hmain r limit h200] at heq
      by_cases hle : (r.chunks.map List.length).sum ≤ limit
      · rw [if_pos hle] at heq
        exact (Except.ok.inj heq).symm
      · rw [if_neg hle] at heq
        exact absurd heq (by simp)
    · rw [sizeLimitResponse, if_pos h200] at heq
      exact absurd heq (by simp)

/-- Witness for C2: a 200 response of three chunks totalling 6 bytes passes
a limit of 6 and fails a limit of 5, and a non-200 status fails. -/
theorem size_limit_c2_witness :
    (sizeLimitResponse (FetchResponse.mk 200 "OK" [[1, 2], [3], [4, 5, 6]]) 6 =
      Except.ok [1, 2, 3, 4, 5, 6])
    ∧ (sizeLimitResponse (FetchResponse.mk 200 "OK" [[1, 2], [3], [4, 5, 6]]) 5).isOk = false
    ∧ (sizeLimitResponse (FetchResponse.mk 404 "Not Found" [[1]]) 65536).isOk = false := by
  refine ⟨?_, ?_, ?_⟩
  · have h := (size_limit_c2.2.1 (FetchResponse.mk 200 "OK" [[1, 2], [3], [4, 5, 6]]) 6
      rfl).mp (by decide)
    rw [h]
    rfl
  · have h := size_limit_c2.2.2.1 "OK" [[1, 2], [3], [4, 5, 6]] [] 5 (by decide)
    rw [show ([[1, 2], [3], [4, 5, 6]] : List (List Nat)) ++ [] = [[1, 2], [3], [4, 5, 6]]
      from rfl] at h
    rw [h]
    rfl
  · have h := size_limit_c2.1 (FetchResponse.mk 404 "Not Found" [[1]]) 65536 (by decide)
    exact h

/-! ## AutoLocate.locate

The Mailvelope keyserver client (src/modules/keyserver.js) and the
keyring importer are external to the included sources; the two lookups
enter the model as their outcomes (a resolved value or a rejection), and
the performed keyring import is recorded in the returned structure.  JS falsiness of the armored
variable (undefined or empty string) is modelled by the empty string. -/

/-- A key record returned by the keyserver lookup. -/
structure KsKey where
  publicKeyArmored : Option String
deriving DecidableEq, Repr

/-- Observable outcome of one AutoLocate.locate run: whether the WKD
lookup was attempted, and the armored material imported into the main
keyring (none when nothing was imported). -/
structure LocateResult where
  wkdAttempted : Bool
  imported : Option String
deriving DecidableEq, Repr

/-- The armored string held after the keyserver phase of locate. -/
def ksArmored (keyserverEnabled : Bool) (ksLookup : Except String (Option KsKey)) :
    String :=
  if keyserverEnabled then
    match ksLookup with
    | Except.ok (some key) => key.publicKeyArmored.getD ""
    | Except.ok none => ""
    | Except.error _ => ""
  else ""

/-- The armored result of the WKD phase: the resolved value, or on a
rejection (caught and logged) the previous armored value. -/
def wkdArmoredOf (wkd : Except String String) (fallback : String) : String :=
  match wkd with
  | Except.ok a => a
  | Except.error _ => fallback

/-- AutoLocate.locate: both lookups are wrapped in try/catch whose handler
only logs, imports armored material when some was obtained, and returns
nothing; a rejection of the whole function would be an Except.error. -/
def locate (keyserverEnabled wkdEnabled : Bool) (email : String)
    (ksLookup : Except String (Option KsKey)) (wkdLookup : Except String String) :
    Except String LocateResult :=
  let armored0 := ksArmored keyserverEnabled ksLookup
  let wkdAttempt := (armored0 == "") && (email != "") && wkdEnabled
  let armored1 := if wkdAttempt then wkdArmoredOf wkdLookup armored0 else armored0
  Except.ok
    { wkdAttempted := wkdAttempt,
      imported := if armored1 != "" then some armored1 else none }

lemma locate_eq (kse wkde : Bool) (email : String) (ks : Except String (Option KsKey))
    (wkd : Except String String) :
    locate kse wkde email ks wkd = Except.ok
      { wkdAttempted := (ksArmored kse ks == "") && (email != "") && wkde,
        imported :=
          if (if (ksArmored kse ks == "") && (email != "") && wkde
              then wkdArmoredOf wkd (ksArmored kse ks)
              else ksArmored kse ks) != ""
          then some (if (ksArmored kse ks == "") && (email != "") && wkde
              then wkdArmoredOf wkd (ksArmored kse ks)
              else ksArmored kse ks)
          else none } := rfl

/-- C6: locate never propagates a lookup failure (it always resolves); the
WKD lookup is attempted exactly when the keyserver yielded no armored key,
an email is present and WKD is enabled; obtained armored material is
imported (keyserver material pre-empting WKD); and when both sources fail
nothing is imported and no error escapes. -/
theorem autolocate_c6 :
    (∀ (kse wkde : Bool) (email : String) (ks : Except String (Option KsKey))
        (wkd : Except String String),
      (locate kse wkde email ks wkd).isOk = true)
    ∧ (∀ (kse wkde : Bool) (email : String) (ks : Except String (Option KsKey))
        (wkd : Except String String) (r : LocateResult),
      locate kse wkde email ks wkd = Except.ok r →
      (r.wkdAttempted = true ↔ (ksArmored kse ks = "" ∧ email ≠ "" ∧ wkde = true)))
    ∧ (∀ (kse wkde : Bool) (email : String) (ks : Except String (Option KsKey))
        (wkd : Except String String),
      ksArmored kse ks ≠ "" →
      locate kse wkde email ks wkd =
        Except.ok (LocateResult.mk false (some (ksArmored kse ks))))
    ∧ (∀ (kse wkde : Bool) (email : String) (ks : Except String (Option KsKey))
        (a : String),
      ksArmored kse ks = "" → email ≠ "" → wkde = true → a ≠ "" →
      locate kse wkde email ks (Except.ok a) =
        Except.ok (LocateResult.mk true (some a)))
    ∧ (∀ (kse wkde : Bool) (email : String) (ks : Except String (Option KsKey))
        (e : String),
      ksArmored kse ks = "" →
      ∃ att, locate kse wkde email ks (Except.error e) =
        Except.ok (LocateResult.mk att none)) := by
  refine ⟨?_, ?_, ?_, ?_, ?_⟩
  · intro kse wkde email ks wkd
    rw [locate_eq]
    rfl
  · intro kse wkde email ks wkd r hr
    rw [locate_eq] at hr
    have hr2 := (Except.ok.inj hr).symm
    rw [hr2]
    simp only [Bool.and_eq_true, beq_iff_eq, bne_iff_ne, ne_eq]
    constructor
    · rintro ⟨⟨h1, h2⟩, h3⟩
      exact ⟨h1, h2, h3⟩
    · rintro ⟨h1, h2, h3⟩
      exact ⟨⟨h1, h2⟩, h3⟩
  · intro kse wkde email ks wkd hne
    rw [locate_eq]
    have hbeq : (ksArmored kse ks == "") = false := by
      simpa using hne
    simp [hbeq, hne]
  · intro kse wkde email ks a hks hemail hwkde ha
    rw [locate_eq]
    have hbeq : (ksArmored kse ks == "") = true := by simpa using hks
    simp [hbeq, hemail, hwkde, wkdArmoredOf, ha]
  · intro kse wkde email ks e hks
    refine ⟨(ksArmored kse ks == "") && (email != "") && wkde, ?_⟩
    rw [locate_eq]
    have hbeq : (ksArmored kse ks == "") = true := by simpa using hks
    by_cases hatt : ((email != "") && wkde) = true
    · simp [hbeq, hatt, wkdArmoredOf, hks]
    · rw [Bool.not_eq_true] at hatt
      simp [hbeq, hatt, wkdArmoredOf, hks]

/-- Witness for C6 at concrete inputs: with the keyserver disabled and a
failing keyserver result, a successful WKD lookup leads to an import of
exactly the WKD armored key. -/
theorem autolocate_c6_witness :
    locate false true "a@x.org" (Except.error "server down") (Except.ok "ARMORED KEY") =
      Except.ok (LocateResult.mk true (some "ARMORED KEY")) :=
  autolocate_c6.2.2.2.1 false true "a@x.org" (Except.error "server down") "ARMORED KEY"
    rfl (by decide) rfl (by decide)

/-! ## EditorController: getPublicKeyFprs and onEditorContainerEncrypt

mvelo.util.sortAndDeDup lives in src/lib/lib-mvelo, which is not among
the included sources.
Modelled from the spec: the final set is deduplicated and sorted for
determinism, so sortAndDeDup is deduplication followed by sorting. -/

def sortAndDeDup (l : List String) : List String :=
  l.dedup.insertionSort (fun a b => a ≤ b)

/-- A recipient key object as consumed by getPublicKeyFprs. -/
structure RecipientKey where
  fingerprint : String
deriving DecidableEq, Repr

/-- getPublicKeyFprs from EditorController: the explicit fingerprint
buffer takes precedence; otherwise the recipient key fingerprints are
collected and, if the auto-add-primary preference is set and a primary
key exists, the primary fingerprint of the main keyring is appended;
the result is deduplicated and sorted. -/
def getPublicKeyFprs (keyFprBuffer : Option (List String)) (autoAddPrimary : Bool)
    (primaryKeyFpr : Option String) (keys : List RecipientKey) : List String :=
  sortAndDeDup
    (match keyFprBuffer with
     | some buf => buf
     | none =>
       let base := keys.map (fun k => k.fingerprint)
       if autoAddPrimary then
         match primaryKeyFpr with
         | some p => base ++ [p]
         | none => base
       else base)

/-- onEditorContainerEncrypt from EditorController, up to the point where
the fingerprint buffer is set: fails with NO_KEY_FOR_RECIPIENT when some
recipient has no key (the map yields false, modelled as none), otherwise
concatenates the per-recipient fingerprints, appends the primary
fingerprint under the auto-add-primary preference, and stores the
deduplicated sorted buffer. -/
def onEditorContainerEncrypt (recipients : List String)
    (keyFprMap : String → Option (List String)) (autoAddPrimary : Bool)
    (primaryKeyFpr : Option String) : Except String (List String) :=
  if recipients.any (fun r => (keyFprMap r).isNone) then
    Except.error "NO_KEY_FOR_RECIPIENT"
  else
    let keyFprs := recipients.foldl (fun acc r => acc ++ ((keyFprMap r).getD [])) []
    let keyFprs2 :=
      if autoAddPrimary then
        match primaryKeyFpr with
        | some p => keyFprs ++ [p]
        | none => keyFprs
      else keyFprs
    Except.ok (sortAndDeDup keyFprs2)

lemma sortAndDeDup_sorted (l : List String) :
    List.Sorted (fun a b => a ≤ b) (sortAndDeDup l) :=
  List.sorted_insertionSort _ _

lemma sortAndDeDup_perm (l : List String) : (sortAndDeDup l).Perm l.dedup :=
  List.perm_insertionSort _ _

lemma sortAndDeDup_nodup (l : List String) : (sortAndDeDup l).Nodup :=
  (sortAndDeDup_perm l).symm.nodup (List.nodup_dedup l)

lemma sortAndDeDup_mem (l : List String) (x : String) :
    x ∈ sortAndDeDup l ↔ x ∈ l := by
  rw [(sortAndDeDup_perm l).mem_iff, List.mem_dedup]

lemma sortAndDeDup_ext (l1 l2 : List String) (h : ∀ x, x ∈ l1 ↔ x ∈ l2) :
    sortAndDeDup l1 = sortAndDeDup l2 := by
  apply List.eq_of_perm_of_sorted _ (sortAndDeDup_sorted l1) (sortAndDeDup_sorted l2)
  rw [List.perm_ext_iff_of_nodup (sortAndDeDup_nodup l1) (sortAndDeDup_nodup l2)]
  intro a
  rw [sortAndDeDup_mem, sortAndDeDup_mem]
  exact h a

/-- C7: the encryption fingerprint set is always sorted and duplicate-free;
an explicit fingerprint buffer takes precedence over recomputation; with
the auto-add-primary preference the primary fingerprint is in the final
set; the set does not depend on recipient order or duplicate recipient
entries; and the buffer built by onEditorContainerEncrypt is itself
sorted, duplicate-free, contains the primary fingerprint, and passes
through getPublicKeyFprs unchanged. -/
theorem fpr_set_c7 :
    (∀ (buf : Option (List String)) (aap : Bool) (prim : Option String)
        (keys : List RecipientKey),
      List.Sorted (fun a b => a ≤ b) (getPublicKeyFprs buf aap prim keys)
      ∧ (getPublicKeyFprs buf aap prim keys).Nodup)
    ∧ (∀ (b : List String) (aap : Bool) (prim : Option String) (keys : List RecipientKey),
      getPublicKeyFprs (some b) aap prim keys = sortAndDeDup b)
    ∧ (∀ (p : String) (keys : List RecipientKey),
      p ∈ getPublicKeyFprs none true (some p) keys)
    ∧ (∀ (aap : Bool) (prim : Option String) (keys1 keys2 : List RecipientKey),
      (∀ x ∈ keys1.map (fun k => k.fingerprint), x ∈ keys2.map (fun k => k.fingerprint)) →
      (∀ x ∈ keys2.map (fun k => k.fingerprint), x ∈ keys1.map (fun k => k.fingerprint)) →
      getPublicKeyFprs none aap prim keys1 = getPublicKeyFprs none aap prim keys2)
    ∧ (∀ (recipients : List String) (keyFprMap : String → Option (List String)) (p : String),
      (recipients.any (fun r => (keyFprMap r).isNone)) = false →
      ∃ buf, onEditorContainerEncrypt recipients keyFprMap true (some p) = Except.ok buf
        ∧ p ∈ buf ∧ List.Sorted (fun a b => a ≤ b) buf ∧ buf.Nodup
        ∧ getPublicKeyFprs (some buf) false none [] = buf) := by
  refine ⟨?_, ?_, ?_, ?_, ?_⟩
  · intro buf aap prim keys
    cases buf with
    | some b => exact ⟨sortAndDeDup_sorted _, sortAndDeDup_nodup _⟩
    | none => exact ⟨sortAndDeDup_sorted _, sortAndDeDup_nodup _⟩
  · intro b aap prim keys
    rfl
  · intro p keys
    show p ∈ sortAndDeDup (keys.map (fun k => k.fingerprint) ++ [p])
    rw [sortAndDeDup_mem]
    simp
  · intro aap prim keys1 keys2 h12 h21
    have hmem : ∀ x, x ∈ keys1.map (fun k => k.fingerprint) ↔
        x ∈ keys2.map (fun k => k.fingerprint) :=
      fun x => ⟨fun hx => h12 x hx, fun hx => h21 x hx⟩
    show sortAndDeDup _ = sortAndDeDup _
    cases aap with
    | false => exact sortAndDeDup_ext _ _ hmem
    | true =>
      cases prim with
      | none => exact sortAndDeDup_ext _ _ hmem
      | some p =>
        apply sortAndDeDup_ext
        intro x
        simp [List.mem_append, hmem x]
  · intro recipients keyFprMap p hany
    rw [onEditorContainerEncrypt, if_neg (by rw [hany]; simp)]
    refine ⟨_, rfl, ?_, sortAndDeDup_sorted _, sortAndDeDup_nodup _, ?_⟩
    · rw [sortAndDeDup_mem]
      simp
    · show sortAndDeDup (sortAndDeDup _) = sortAndDeDup _
      apply sortAndDeDup_ext
      intro x
      rw [sortAndDeDup_mem]

/-- Witness for C7: a container-encrypt run with one recipient and the
primary key auto-added, and order/duplicate independence at concrete
recipient key lists. -/
theorem fpr_set_c7_witness :
    (∃ buf, onEditorContainerEncrypt ["r1@x.org"] (fun _ => some ["FPRB", "FPRA"])
        true (some "FPRP") = Except.ok buf
      ∧ "FPRP" ∈ buf ∧ List.Sorted (fun a b => a ≤ b) buf ∧ buf.Nodup
      ∧ getPublicKeyFprs (some buf) false none [] = buf)
    ∧ getPublicKeyFprs none true (some "P")
        [RecipientKey.mk "A", RecipientKey.mk "B", RecipientKey.mk "A"] =
      getPublicKeyFprs none true (some "P")
        [RecipientKey.mk "B", RecipientKey.mk "A"] := by
  constructor
  · exact fpr_set_c7.2.2.2.2 ["r1@x.org"] (fun _ => some ["FPRB", "FPRA"]) "FPRP"
      (by decide)
  · exact fpr_set_c7.2.2.2.1 true (some "P")
      [RecipientKey.mk "A", RecipientKey.mk "B", RecipientKey.mk "A"]
      [RecipientKey.mk "B", RecipientKey.mk "A"] (by decide) (by decide)

/-! ## EditorController: sign / sign-and-encrypt error flow

The handler effects are modelled as an emitted event trace.  The crypto
engine call model.encryptMessage lives in src/modules/pgpModel.js, which
is not among the included sources.
Modelled from the spec: the engine invokes the unlock collaborator and the
actual encrypt/sign operation runs only after a successful unlock; a
cancelled unlock aborts the job before any engine operation. -/

/-- A JS error as produced by mvelo.Error: message and code. -/
structure JsError where
  message : String
  code : String
deriving DecidableEq, Repr

/-- Events the editor controller emits on its ports. -/
inductive EditorEvent
  | encryptEnd
  | hidePwdDialog
  | errorMessage (code : String)
  | errorMessageCont (code : String)
  | rejectDone (code : String)
  | encryptFailed
  | transferEncrypted (armored : String)
  | getPlaintext (action : String)
deriving DecidableEq, Repr

/-- Outcome of the signAndEncrypt pipeline: whether the crypto engine
operation was invoked, and the settled result. -/
structure SignEncryptOutcome where
  engineInvoked : Bool
  result : Except JsError String
deriving Repr

/-- Modelled from the spec: model.encryptMessage runs the unlock
collaborator first and the engine only on unlock success. -/
def encryptMessageModel (unlock : Except JsError Unit) (engineOutput : String) :
    SignEncryptOutcome :=
  match unlock with
  | Except.error e => SignEncryptOutcome.mk false (Except.error e)
  | Except.ok _ => SignEncryptOutcome.mk true (Except.ok engineOutput)

/-- The signing key resolution of signAndEncryptMessage: the explicit
fingerprint, else the primary key of the keyring. -/
def resolveSignKey (signKeyFpr primaryKeyFpr : Option String) : Option String :=
  match signKeyFpr with
  | some f => some f
  | none => primaryKeyFpr

/-- signAndEncryptMessage from EditorController: resolve the signing key
(failing with NO_PRIMARY_KEY_FOUND before any engine call when there is
none), then run the engine with the unlock callback. -/
def signAndEncryptMessage (signKeyFpr primaryKeyFpr : Option String)
    (unlock : Except JsError Unit) (engineOutput : String) : SignEncryptOutcome :=
  match resolveSignKey signKeyFpr primaryKeyFpr with
  | none => SignEncryptOutcome.mk false
      (Except.error (JsError.mk "No primary key found" "NO_PRIMARY_KEY_FOUND"))
  | some _ => encryptMessageModel unlock engineOutput

/-- The catch clause of onEditorPlaintext as an event trace: a cancelled
password dialog is swallowed only in the popup case; otherwise the error
is reported to the editor and to the container (or the promise caller)
and the encrypt-failed event is emitted. -/
def onEditorPlaintext (editorPopup editorCont : Bool) (se : SignEncryptOutcome) :
    List EditorEvent :=
  match se.result with
  | Except.ok armored => [EditorEvent.encryptEnd, EditorEvent.transferEncrypted armored]
  | Except.error e =>
    if editorPopup && (e.code == "PWD_DIALOG_CANCEL") then [EditorEvent.hidePwdDialog]
    else
      [EditorEvent.errorMessage e.code] ++
      (if editorCont then [EditorEvent.errorMessageCont e.code]
       else [EditorEvent.rejectDone e.code]) ++
      [EditorEvent.encryptFailed]

/-- onSignOnly from EditorController: unlock the signing key; on a
cancelled dialog hide it and stop; on any other unlock error report it
and fall through; in all non-cancelled cases emit the sign request. -/
def onSignOnly (unlock : Except JsError Unit) : List EditorEvent :=
  match unlock with
  | Except.ok _ => [EditorEvent.getPlaintext "sign"]
  | Except.error e =>
    if e.code == "PWD_DIALOG_CANCEL" then [EditorEvent.hidePwdDialog]
    else [EditorEvent.errorMessage e.code, EditorEvent.getPlaintext "sign"]

/-- Counterexample to C8 as stated: in the container case (no editor
popup) a cancelled password dialog is surfaced as an error message and
the dialog is not hidden. -/
theorem editor_cancel_c8_counterexample :
    EditorEvent.errorMessage "PWD_DIALOG_CANCEL" ∈
      onEditorPlaintext false true
        (signAndEncryptMessage none (some "PRIMARYFPR")
          (Except.error (JsError.mk "dialog canceled" "PWD_DIALOG_CANCEL")) "CIPHER")
    ∧ EditorEvent.hidePwdDialog ∉
      onEditorPlaintext false true
        (signAndEncryptMessage none (some "PRIMARYFPR")
          (Except.error (JsError.mk "dialog canceled" "PWD_DIALOG_CANCEL")) "CIPHER")
    ∧ EditorEvent.errorMessageCont "PWD_DIALOG_CANCEL" ∈
      onEditorPlaintext false true
        (signAndEncryptMessage none (some "PRIMARYFPR")
          (Except.error (JsError.mk "dialog canceled" "PWD_DIALOG_CANCEL")) "CIPHER") := by
  decide

/-- C8 (amended): when the unlock is cancelled the crypto engine is never
invoked; in the popup editor the job ends silently (dialog hidden, no
error or failure event); in the container case the cancellation is
surfaced as an error message; and onSignOnly swallows the cancel
unconditionally. -/
theorem editor_cancel_c8 :
    ∀ (signKeyFpr primaryKeyFpr : Option String) (engineOutput : String) (e : JsError)
      (k : String),
      e.code = "PWD_DIALOG_CANCEL" →
      resolveSignKey signKeyFpr primaryKeyFpr = some k →
      (signAndEncryptMessage signKeyFpr primaryKeyFpr (Except.error e)
          engineOutput).engineInvoked = false
      ∧ (∀ editorCont : Bool,
          onEditorPlaintext true editorCont
            (signAndEncryptMessage signKeyFpr primaryKeyFpr (Except.error e) engineOutput) =
          [EditorEvent.hidePwdDialog])
      ∧ (∀ editorCont code : _,
          EditorEvent.errorMessage code ∉
            onEditorPlaintext true editorCont
              (signAndEncryptMessage signKeyFpr primaryKeyFpr (Except.error e) engineOutput)
          ∧ EditorEvent.encryptFailed ∉
            onEditorPlaintext true editorCont
              (signAndEncryptMessage signKeyFpr primaryKeyFpr (Except.error e) engineOutput))
      ∧ (EditorEvent.errorMessage e.code ∈
          onEditorPlaintext false true
            (signAndEncryptMessage signKeyFpr primaryKeyFpr (Except.error e) engineOutput))
      ∧ onSignOnly (Except.error e) = [EditorEvent.hidePwdDialog] := by
  intro signKeyFpr primaryKeyFpr engineOutput e k hcode hkey
  have hse : signAndEncryptMessage signKeyFpr primaryKeyFpr (Except.error e) engineOutput =
      SignEncryptOutcome.mk false (Except.error e) := by
    rw [signAndEncryptMessage, hkey]
    rfl
  rw [hse]
  have hbeq : (e.code == "PWD_DIALOG_CANCEL") = true := by simpa using hcode
  refine ⟨rfl, ?_, ?_, ?_, ?_⟩
  · intro editorCont
    simp [onEditorPlaintext, hbeq]
  · intro editorCont code
    constructor
    · simp [onEditorPlaintext, hbeq]
    · simp [onEditorPlaintext, hbeq]
  · simp [onEditorPlaintext, hbeq]
  · simp [onSignOnly, hbeq]

/-- Witness for the amended C8 at a concrete cancelled job. -/
theorem editor_cancel_c8_witness :
    (signAndEncryptMessage (some "SKEY") none
        (Except.error (JsError.mk "canceled" "PWD_DIALOG_CANCEL")) "CIPHER").engineInvoked =
      false
    ∧ onEditorPlaintext true false
        (signAndEncryptMessage (some "SKEY") none
          (Except.error (JsError.mk "canceled" "PWD_DIALOG_CANCEL")) "CIPHER") =
        [EditorEvent.hidePwdDialog] := by
  have h := editor_cancel_c8 (some "SKEY") none "CIPHER"
    (JsError.mk "canceled" "PWD_DIALOG_CANCEL") "SKEY" rfl rfl
  exact ⟨h.1, h.2.1 false⟩

/-- C10: in onSignOnly a non-cancellation unlock error is reported and the
sign request is still emitted; only a cancellation suppresses it; a
successful unlock emits only the sign request. -/
theorem sign_only_c10 :
    (∀ e : JsError, e.code ≠ "PWD_DIALOG_CANCEL" →
      onSignOnly (Except.error e) =
        [EditorEvent.errorMessage e.code, EditorEvent.getPlaintext "sign"])
    ∧ (∀ e : JsError, e.code = "PWD_DIALOG_CANCEL" →
      onSignOnly (Except.error e) = [EditorEvent.hidePwdDialog]
      ∧ EditorEvent.getPlaintext "sign" ∉ onSignOnly (Except.error e))
    ∧ onSignOnly (Except.ok ()) = [EditorEvent.getPlaintext "sign"] := by
  refine ⟨?_, ?_, rfl⟩
  · intro e hcode
    have hbeq : (e.code == "PWD_DIALOG_CANCEL") = false := by simpa using hcode
    simp [onSignOnly, hbeq]
  · intro e hcode
    have hbeq : (e.code == "PWD_DIALOG_CANCEL") = true := by simpa using hcode
    constructor
    · simp [onSignOnly, hbeq]
    · simp [onSignOnly, hbeq]

/-- Witness for C10 at a concrete failed unlock. -/
theorem sign_only_c10_witness :
    onSignOnly (Except.error (JsError.mk "wrong password" "WRONG_PASSWORD")) =
      [EditorEvent.errorMessage "WRONG_PASSWORD", EditorEvent.getPlaintext "sign"] :=
  sign_only_c10.1 (JsError.mk "wrong password" "WRONG_PASSWORD") (by decide)

/-! ## KeyringBase.getKeyData

getUserId and mapKeyUserIds live in src/modules/key.js, which is not
among the included sources.
Modelled from the spec: getUserId selects the primary (first valid) user
identity of the key; mapKeyUserIds extracts the email of a user id string
(an empty email when it has none).  The per-keyring pseudo-revocation
check trustKey.isKeyPseudoRevoked enters as a field of the stored key. -/

/-- A user id string with its mapKeyUserIds-extracted email. -/
structure MappedUser where
  userId : String
  email : String
deriving DecidableEq, Repr

/-- A user packet of a stored key as inspected by the allUsers branch:
the optional raw user id, its extracted email, and the result of
keyUser.verify against the primary key. -/
structure KeyUser where
  userId : Option String
  email : String
  verifyValid : Bool
deriving DecidableEq, Repr

/-- A key of the keystore as inspected by getKeyData. -/
structure StoredKey where
  fingerprint : String
  keyId : String
  status : KeyStatus
  pseudoRevoked : Bool
  users : List KeyUser
  primaryUser : MappedUser
deriving DecidableEq, Repr

/-- One entry of the getKeyData result. -/
structure KeyDataEntry where
  fingerprint : String
  keyId : String
  users : List MappedUser
deriving DecidableEq, Repr

/-- The allUsers loop of getKeyData: keep user ids that are present and
verify as valid, skip duplicates by user id, skip identities without an
email address. -/
def collectAllUsers (us : List KeyUser) : List MappedUser :=
  us.foldl (fun acc ku =>
    match ku.userId with
    | none => acc
    | some uid =>
      if ku.verifyValid then
        if acc.any (fun eu => eu.userId == uid) then acc
        else if ku.email == "" then acc
        else acc ++ [MappedUser.mk uid ku.email]
      else acc) []

/-- getKeyData from KeyringBase: skip keys whose primary key verifies as
invalid or that are pseudo-revoked for this keyring; with allUsers the
filtered user collection, otherwise the single primary user identity. -/
def getKeyData (keys : List StoredKey) (allUsers : Bool) : List KeyDataEntry :=
  keys.filterMap (fun key =>
    if key.status = KeyStatus.invalid ∨ key.pseudoRevoked = true then none
    else some (KeyDataEntry.mk key.fingerprint key.keyId
      (if allUsers then collectAllUsers key.users else [key.primaryUser])))

lemma collectAllUsers_email_aux (us : List KeyUser) :
    ∀ acc : List MappedUser, (∀ u ∈ acc, u.email ≠ "") →
    ∀ u ∈ us.foldl (fun acc ku =>
      match ku.userId with
      | none => acc
      | some uid =>
        if ku.verifyValid then
          if acc.any (fun eu => eu.userId == uid) then acc
          else if ku.email == "" then acc
          else acc ++ [MappedUser.mk uid ku.email]
        else acc) acc, u.email ≠ "" := by
  induction us with
  | nil =>
    intro acc hacc u hu
    exact hacc u hu
  | cons ku rest ih =>
    intro acc hacc u hu
    rw [List.foldl_cons] at hu
    cases hku : ku.userId with
    | none =>
      rw [hku] at hu
      dsimp only at hu
      exact ih acc hacc u hu
    | some uid =>
      rw [hku] at hu
      dsimp only at hu
      by_cases hv : ku.verifyValid
      · rw [if_pos hv] at hu
        by_cases hdup : acc.any (fun eu => eu.userId == uid)
        · rw [if_pos hdup] at hu
          exact ih acc hacc u hu
        · rw [if_neg hdup] at hu
          by_cases hmail : (ku.email == "") = true
          · rw [if_pos hmail] at hu
            exact ih acc hacc u hu
          · rw [if_neg hmail] at hu
            refine ih _ ?_ u hu
            intro v hv2
            rcases List.mem_append.mp hv2 with hv3 | hv3
            · exact hacc v hv3
            · rcases List.mem_singleton.mp hv3 with rfl
              simpa using hmail
      · rw [if_neg hv] at hu
        exact ih acc hacc u hu

lemma collectAllUsers_email (us : List KeyUser) :
    ∀ u ∈ collectAllUsers us, u.email ≠ "" :=
  collectAllUsers_email_aux us [] (by intro u hu; exact absurd hu (by simp))

/-- Counterexample to C9 as stated: with allUserIds false an email-less
primary identity is returned, not dropped. -/
theorem keydata_c9_counterexample :
    getKeyData
      [StoredKey.mk "FPR1" "KID1" KeyStatus.valid false [] (MappedUser.mk "NoMailUser" "")]
      false =
      [KeyDataEntry.mk "FPR1" "KID1" [MappedUser.mk "NoMailUser" ""]]
    ∧ ∃ e ∈ getKeyData
        [StoredKey.mk "FPR1" "KID1" KeyStatus.valid false [] (MappedUser.mk "NoMailUser" "")]
        false, ∃ u ∈ e.users, u.email = "" := by
  decide

/-- C9 (amended): getKeyData excludes keys whose primary signature
verifies as invalid and keys pseudo-revoked for this keyring; with
all-user-ids false each entry carries exactly the primary user identity,
even when it lacks an email; identities without an email address are
dropped only in the all-user-ids collection. -/
theorem keydata_c9 :
    (∀ (keys : List StoredKey) (allUsers : Bool),
      getKeyData keys allUsers =
        (keys.filter (fun k =>
          !(k.status == KeyStatus.invalid || k.pseudoRevoked))).map
          (fun key => KeyDataEntry.mk key.fingerprint key.keyId
            (if allUsers then collectAllUsers key.users else [key.primaryUser])))
    ∧ (∀ (keys : List StoredKey) (e : KeyDataEntry), e ∈ getKeyData keys false →
      ∃ k, k ∈ keys ∧ k.status ≠ KeyStatus.invalid ∧ k.pseudoRevoked = false ∧
        e = KeyDataEntry.mk k.fingerprint k.keyId [k.primaryUser])
    ∧ (∀ (keys : List StoredKey) (e : KeyDataEntry), e ∈ getKeyData keys true →
      ∀ u ∈ e.users, u.email ≠ "") := by
  refine ⟨?_, ?_, ?_⟩
  · intro keys allUsers
    induction keys with
    | nil => rfl
    | cons k t ih =>
      by_cases hk : k.status = KeyStatus.invalid ∨ k.pseudoRevoked = true
      · have hf : ¬ (!(k.status == KeyStatus.invalid || k.pseudoRevoked)) = true := by
          rcases hk with h | h
          · simp [h]
          · simp [h]
        rw [getKeyData, List.filterMap_cons_none (by rw [if_pos hk]),
          List.filter_cons_of_neg
            (p := fun (k : StoredKey) => !(k.status == KeyStatus.invalid || k.pseudoRevoked)) hf]
        simpa [getKeyData] using ih
      · push_neg at hk
        have hf : (!(k.status == KeyStatus.invalid || k.pseudoRevoked)) = true := by
          simp [hk.1, hk.2]
        have hcond : ¬ (k.status = KeyStatus.invalid ∨ k.pseudoRevoked = true) := by
          push_neg
          exact hk
        rw [getKeyData, List.filterMap_cons_some (by rw [if_neg hcond]),
          List.filter_cons_of_pos
            (p := fun (k : StoredKey) => !(k.status == KeyStatus.invalid || k.pseudoRevoked)) hf,
          List.map_cons]
        simpa [getKeyData] using ih
  · intro keys e he
    rw [getKeyData, List.mem_filterMap] at he
    obtain ⟨k, hk, heq⟩ := he
    by_cases hcond : k.status = KeyStatus.invalid ∨ k.pseudoRevoked = true
    · rw [if_pos hcond] at heq
      exact absurd heq (by simp)
    · rw [if_neg hcond] at heq
      push_neg at hcond
      refine ⟨k, hk, hcond.1, ?_, ?_⟩
      · rcases Bool.eq_false_or_eq_true k.pseudoRevoked with h | h
        · exact absurd h hcond.2
        · exact h
      · have hrec := Option.some_inj.mp heq
        rw [← hrec]
        rfl
  · intro keys e he u hu
    rw [getKeyData, List.mem_filterMap] at he
    obtain ⟨k, hk, heq⟩ := he
    by_cases hcond : k.status = KeyStatus.invalid ∨ k.pseudoRevoked = true
    · rw [if_pos hcond] at heq
      exact absurd heq (by simp)
    · rw [if_neg hcond] at heq
      have he2 := Option.some_inj.mp heq
      rw [← he2] at hu
      exact collectAllUsers_email k.users u (by simpa using hu)

/-- Witness for the amended C9: an invalid key and a pseudo-revoked key
are excluded, a valid key yields exactly its primary identity. -/
theorem keydata_c9_witness :
    getKeyData
      [StoredKey.mk "F1" "K1" KeyStatus.invalid false [] (MappedUser.mk "A" "a@x.org"),
       StoredKey.mk "F2" "K2" KeyStatus.valid true [] (MappedUser.mk "B" "b@x.org"),
       StoredKey.mk "F3" "K3" KeyStatus.valid false [] (MappedUser.mk "C" "c@x.org")]
      false =
      [KeyDataEntry.mk "F3" "K3" [MappedUser.mk "C" "c@x.org"]] := by
  rw [keydata_c9.1
    [StoredKey.mk "F1" "K1" KeyStatus.invalid false [] (MappedUser.mk "A" "a@x.org"),
     StoredKey.mk "F2" "K2" KeyStatus.valid true [] (MappedUser.mk "B" "b@x.org"),
     StoredKey.mk "F3" "K3" KeyStatus.valid false [] (MappedUser.mk "C" "c@x.org")]
    false]
  decide
